import Mathlib

/-!
Verification of the conversational-analytics pipeline (`src/app.py`,
`src/app_panel.py`): a shallow embedding over `List Char` of the pure SQL
helpers (`sanitize_sql`, `sql_is_safe`, `ensure_limit`), of the two LLM
helpers' special-case structure (`build_sql_with_ai`, `ai_summary_paragraph`,
`ai_key_findings`), and of the pending-turn processing blocks of the two
deployment variants.  Python string/regex semantics are modelled at the ASCII
level: `str.strip`, `\s`, `\d`, `\w`, `\b` and `str.lower` are embedded with
their ASCII meaning, which is exhaustive for the SQL text these helpers are
designed for.
-/

namespace GSCChat

/-- ASCII whitespace, the `\s` class and the default `str.strip` set. -/
def isSpace (c : Char) : Bool :=
  c = ' ' || c = '\t' || c = '\n' || c = '\r' || c = '\x0b' || c = '\x0c'

/-- The `\d` class. -/
def isDigit (c : Char) : Bool :=
  '0' ≤ c && c ≤ '9'

/-- The `\w` class (ASCII), used for the `\b` word boundaries. -/
def isWordChar (c : Char) : Bool :=
  ('a' ≤ c && c ≤ 'z') || ('A' ≤ c && c ≤ 'Z') || isDigit c || c = '_'

/-- Python `str.lower` (ASCII). -/
def lowerStr (s : List Char) : List Char := s.map Char.toLower

/-- Python `str.lstrip()`. -/
def lstrip (s : List Char) : List Char := s.dropWhile isSpace

/-- Python `str.rstrip()`. -/
def rstrip (s : List Char) : List Char := (s.reverse.dropWhile isSpace).reverse

/-- Python `str.strip()`. -/
def pstrip (s : List Char) : List Char := rstrip (lstrip s)

/-- Python `str.rstrip(";")`: drop every trailing statement terminator. -/
def rstripSemi (s : List Char) : List Char :=
  (s.reverse.dropWhile (fun c => c == ';')).reverse

/-- The substitution `re.sub(r"[`\s]", "", s)`: drop every backtick-quote and whitespace char. -/
def cleanTicksSpace (s : List Char) : List Char :=
  s.filter (fun c => !(c = Char.ofNat 96 || isSpace c))

/-- The triple code-fence delimiter. -/
def fence : List Char := "```".toList

def selectKw : List Char := "select".toList

/-- The substitution `re.sub(r"^sql\s*", "", t, flags=re.IGNORECASE)`: the pattern is anchored,
so at most the leading case-insensitive `sql` label plus the following
whitespace run is removed. -/
def stripLabel (t : List Char) : List Char :=
  if lowerStr (t.take 3) = "sql".toList then (t.drop 3).dropWhile isSpace else t

/-- Leading alternative of
`re.sub(r"^```(?:sql)?\s*|\s*```$", "", t, flags=re.IGNORECASE|re.DOTALL)`:
anchored at position 0, it removes a leading fence, an optional
case-insensitive `sql` tag, and the following whitespace run. -/
def stripLeadFence (t : List Char) : List Char :=
  if t.take 3 = fence then
    let r := t.drop 3
    let r2 := if lowerStr (r.take 3) = "sql".toList then r.drop 3 else r
    r2.dropWhile isSpace
  else t

/-- Trailing alternative `\s*```$` of the fence substitution.  A match exists
iff the text ends with the fence, or with the fence followed by one final
newline (Python's `$` also matches just before a trailing newline); the
leftmost such match additionally swallows the maximal whitespace run
immediately before the fence, and the final newline, being outside the match,
survives the substitution. -/
def stripTrailFence (r : List Char) : List Char :=
  if fence.isSuffixOf r then rstrip (r.take (r.length - 3))
  else if (fence ++ ['\n']).isSuffixOf r then rstrip (r.take (r.length - 4)) ++ ['\n']
  else r

/-- Word boundary on the right: next char absent or not a word char. -/
def noWordHead : List Char → Bool
  | [] => true
  | c :: _ => !isWordChar c

/-- Does the case-insensitive word `select` (`\bselect\b`) match at the head
of `l`, where `prev` is the char just before `l` (`none` at position 0)? -/
def matchSelAt (prev : Option Char) (l : List Char) : Bool :=
  lowerStr (l.take 6) = selectKw &&
  (match prev with | none => true | some c => !isWordChar c) &&
  noWordHead (l.drop 6)

/-- The search `re.search(r"\bselect\b", t, re.IGNORECASE)` followed by `t[m.start():]`:
returns the suffix of `t` starting at the first word-boundary occurrence of
`select`, or `none`. -/
def findSel : Option Char → List Char → Option (List Char)
  | _, [] => none
  | prev, c :: tl => if matchSelAt prev (c :: tl) then some (c :: tl) else findSel (some c) tl

/-- Embedding of `sanitize_sql` of `src/app.py` (lines 125-132). -/
def sanitize_sql (text : List Char) : List Char :=
  if text = [] then []
  else
    let t0 := pstrip text
    let t1 := stripLabel t0
    let t2 := stripTrailFence (stripLeadFence t1)
    let t3 := match findSel none t2 with
              | some suf => suf
              | none => t2
    rstripSemi (pstrip t3)

/-- The label/fence-stripping stage of `sanitize_sql`, before the `select`
search. -/
def preSel (text : List Char) : List Char :=
  stripTrailFence (stripLeadFence (stripLabel (pstrip text)))

/-- The forbidden-token denylist of `sql_is_safe`. -/
def forbidden : List (List Char) :=
  ["insert".toList, "update".toList, "delete".toList, "merge".toList,
   "drop".toList, "create".toList, "alter".toList, "truncate".toList,
   ";".toList, "--".toList, "/*".toList]

/-- The match `re.match(r"^\s*select\b", s)` as a Boolean (applied by the source to the
already-lowercased statement). -/
def startsSelect (t : List Char) : Bool :=
  let u := t.dropWhile isSpace
  selectKw.isPrefixOf u && noWordHead (u.drop 6)

/-- Embedding of `sql_is_safe` of `src/app.py` (lines 134-141); `bqTable` is the `BQ_TABLE`
configuration value.  The three early-return checks of the source are the
three conjuncts, in order. -/
def sql_is_safe (bqTable sql : List Char) : Bool :=
  let s := pstrip sql
  let sLower := lowerStr s
  startsSelect sLower &&
  !(forbidden.any (fun tok => decide (tok <:+: sLower))) &&
  decide (cleanTicksSpace (lowerStr bqTable) <:+: cleanTicksSpace sLower)

/-- Decimal rendering of the `default_limit` integer (`str`/f-string). -/
def natStr (n : Nat) : List Char := (Nat.repr n).data

/-- The search `re.search(r"\blimit\b\s+\d+\s*$", sql, re.I)` as a Boolean.  Because the
pattern is anchored at `$`, a match exists iff, reading the statement
backwards: an (optional) whitespace run, a nonempty digit run, a nonempty
whitespace run, the case-insensitive word `limit`, and a word boundary before
it.  (`$` matching just before a final newline is subsumed: the newline is
itself `\s`.) -/
def hasTrailingLimit (sql : List Char) : Bool :=
  let r1 := sql.reverse.dropWhile isSpace
  let ds := r1.takeWhile isDigit
  let r2 := r1.dropWhile isDigit
  let ws := r2.takeWhile isSpace
  let r3 := r2.dropWhile isSpace
  !ds.isEmpty && !ws.isEmpty && lowerStr (r3.take 5) = "timil".toList &&
  noWordHead (r3.drop 5)

/-- The appended text `f"\nLIMIT {default_limit}"` of `src/app.py` line 144. -/
def nlLimit (n : Nat) : List Char := '\n' :: ("LIMIT ".toList ++ natStr n)

/-- Embedding of `ensure_limit` of `src/app.py` (lines 143-144). -/
def ensure_limit (sql : List Char) (default_limit : Nat) : List Char :=
  if hasTrailingLimit sql then sql else sql ++ nlLimit default_limit

/-- Case-insensitive literal letter `s`.  The panel's patterns of
`src/app_panel.py` are raw strings (`r"..."`) holding doubled backslashes, so
each `\\X` there denotes an escaped literal backslash followed by the plain
letter `X`, with any `*`/`+` applying to that letter alone: `\\s*` matches a
literal backslash and then a run of the letter `s`, not whitespace. -/
def isSChar (c : Char) : Bool := Char.toLower c == 's'

/-- Case-insensitive literal letter `d` (the panel's `\\d+` is a literal
backslash followed by a run of the letter `d`, not a digit class). -/
def isDChar (c : Char) : Bool := Char.toLower c == 'd'

/-- The panel's label substitution `re.sub(r"^sql\\s*", "", t, re.IGNORECASE)`:
a leading case-insensitive `sql` is removed only when a literal backslash and
an `s`-run follow it. -/
def stripLabelPanel (t : List Char) : List Char :=
  if lowerStr (t.take 4) = "sql\\".toList then (t.drop 4).dropWhile isSChar else t

/-- Leading alternative of the panel's fence substitution
`re.sub(r"^```(?:sql)?\\s*|\\s*```$", "", t, re.IGNORECASE | re.DOTALL)`:
the anchored fence, with or without its `sql` tag, matches only when a
literal backslash (and then an `s`-run) follows; otherwise nothing is
removed. -/
def stripLeadFencePanel (t : List Char) : List Char :=
  if t.take 3 = fence then
    if lowerStr ((t.drop 3).take 4) = "sql\\".toList then
      ((t.drop 3).drop 4).dropWhile isSChar
    else if (t.drop 3).take 1 = ['\\'] then ((t.drop 3).drop 1).dropWhile isSChar
    else t
  else t

/-- Trailing alternative `\\s*```$` of the panel's fence substitution: a
literal backslash, an `s`-run, and the fence at the very end (or just before
one final newline, which survives the substitution).  When the text ends with
the fence, the unique candidate match spans the maximal `s`-run before it and
the backslash just before that run; without that backslash there is no
match. -/
def stripTrailFencePanel (r : List Char) : List Char :=
  if fence.isSuffixOf r then
    if ((r.take (r.length - 3)).reverse.dropWhile isSChar).take 1 = ['\\'] then
      (((r.take (r.length - 3)).reverse.dropWhile isSChar).drop 1).reverse
    else r
  else if (fence ++ ['\n']).isSuffixOf r then
    if ((r.take (r.length - 4)).reverse.dropWhile isSChar).take 1 = ['\\'] then
      (((r.take (r.length - 4)).reverse.dropWhile isSChar).drop 1).reverse ++ ['\n']
    else r
  else r

/-- The panel's relocation search `re.search(r"\\bselect\\b", t, re.IGNORECASE)`:
the raw pattern matches the ten literal characters backslash, `b`, `select`,
backslash, `b` (letters case-insensitively). -/
def matchSelPanelAt (l : List Char) : Bool :=
  lowerStr (l.take 10) = "\\bselect\\b".toList

/-- Leftmost occurrence search for the panel's literal pattern. -/
def findSelPanel : List Char → Option (List Char)
  | [] => none
  | c :: tl => if matchSelPanelAt (c :: tl) then some (c :: tl) else findSelPanel tl

/-- Embedding of `sanitize_sql` of `src/app_panel.py` (lines 173-180), with
the raw-string (literal-backslash) semantics of its patterns; on
backslash-free completions the label, fence and relocation stages are all
inert. -/
def sanitize_sql_panel (text : List Char) : List Char :=
  if text = [] then []
  else
    let t0 := pstrip text
    let t1 := stripLabelPanel t0
    let t2 := stripTrailFencePanel (stripLeadFencePanel t1)
    let t3 := match findSelPanel t2 with
              | some suf => suf
              | none => t2
    rstripSemi (pstrip t3)

/-- The panel's statement-start check `re.match(r"^\\s*select\\b", s)` (no
IGNORECASE; `s` is already lowercased): the statement must begin with a
literal backslash, then a nonempty `s`-run whose last `s` starts `select`,
then the two literal characters backslash and `b`. -/
def startsSelectPanel (s : List Char) : Bool :=
  match s with
  | c :: rest =>
      c == '\\' && !(rest.takeWhile (fun d => d == 's')).isEmpty &&
        "elect\\b".toList.isPrefixOf (rest.dropWhile (fun d => d == 's'))
  | [] => false

/-- The panel's cleaning substitution `re.sub(r"[`\\s]", "", x)`: a raw
string, so the character class holds the backtick, the backslash, and the
letter `s` — not whitespace. -/
def cleanTicksPanel (x : List Char) : List Char :=
  x.filter (fun c => !(c = Char.ofNat 96 || c = '\\' || c = 's'))

/-- Embedding of `sql_is_safe` of `src/app_panel.py` (lines 182-189): it
lowercases the stripped statement once up front (`s = sql.strip().lower()`),
then applies the raw-string start check, the denylist, and the raw-string
cleaning class. -/
def sql_is_safe_panel (bqTable sql : List Char) : Bool :=
  let s := lowerStr (pstrip sql)
  startsSelectPanel s &&
  !(forbidden.any (fun tok => decide (tok <:+: s))) &&
  decide (cleanTicksPanel (lowerStr bqTable) <:+: cleanTicksPanel s)

/-- The text appended by `src/app_panel.py` line 192: the non-raw f-string
`f"{sql}\\nLIMIT {default_limit}"` renders `\\n` as the two characters
backslash and `n`, not as a newline. -/
def nlLimitPanel (n : Nat) : List Char := '\\' :: 'n' :: ("LIMIT ".toList ++ natStr n)

/-- The panel's limit guard `re.search(r"\\blimit\\b\\s+\\d+\\s*$", sql, re.I)`:
an all-literal pattern (backslash, `b`, `limit`, backslash, `b`, backslash,
`s`-run, backslash, `d`-run, backslash, `s`-run, then end of string or the
position before one final newline), read backwards deterministically from the
anchored end. -/
def hasTrailingLimitPanel (sql : List Char) : Bool :=
  let r := sql.reverse
  let r1 := if r.take 1 = ['\n'] then r.drop 1 else r
  let r2 := r1.dropWhile isSChar
  r2.take 1 = ['\\'] &&
  (let r3 := r2.drop 1
   !(r3.takeWhile isDChar).isEmpty &&
   (let r4 := r3.dropWhile isDChar
    r4.take 1 = ['\\'] &&
    (let r5 := r4.drop 1
     !(r5.takeWhile isSChar).isEmpty &&
     lowerStr ((r5.dropWhile isSChar).take 10) = "\\b\\timilb\\".toList)))

/-- Embedding of `ensure_limit` of `src/app_panel.py` (lines 191-192): the
raw-string guard matches only statements ending in its literal
backslash-laden tail, and the appended text is `nlLimitPanel`. -/
def ensure_limit_panel (sql : List Char) (default_limit : Nat) : List Char :=
  if hasTrailingLimitPanel sql then sql else sql ++ nlLimitPanel default_limit

/-- Message of `src/app.py` line 243: the answer for an empty or policy-rejected
statement. -/
def msgUnsafe : List Char :=
  "Não foi possível gerar uma consulta segura para essa pergunta. Tente especificar período e/ou dimensões (meses, país, device).".toList

/-- Message of `src/app.py` line 173: the summarizer's message when no LLM credential is
configured. -/
def msgNoKeySummary : List Char :=
  "Defina OPENAI_API para habilitar a síntese de respostas.".toList

/-- Message of `src/app.py` line 174: the summarizer's message for an empty result
set. -/
def msgNoData : List Char := "Sem dados para o recorte solicitado.".toList

/-- Finding of `src/app_panel.py` line 331: the finding stored for an empty or
policy-rejected statement. -/
def panelInvalidFinding : List Char × List Char :=
  ("Consulta inválida".toList,
   "Não foi possível gerar uma SQL segura. Refine a pergunta.".toList)

/-- Finding of `src/app_panel.py` line 222: the finding when no LLM credential is
configured. -/
def panelNoKeyFinding : List Char × List Char :=
  ("Configuração necessária".toList, "Defina OPENAI_API.".toList)

/-- Finding of `src/app_panel.py` line 223: the finding for an empty result set. -/
def panelNoDataFinding : List Char × List Char :=
  ("Sem dados".toList, "Não há linhas para o recorte solicitado.".toList)

/-- Embedding of `build_sql_with_ai` of `src/app.py` (lines 146-170).  `hasClient` models
whether `OPENAI_API` is configured (`client` is not `None`); `llmRaw` is the
completion text the LLM service returns for this question, an oracle of the
external LLM interface.  The source feeds `resp...content.strip()` through
`sanitize_sql`. -/
def build_sql_with_ai (hasClient : Bool) (llmRaw : List Char) : List Char :=
  if hasClient = false then [] else sanitize_sql (pstrip llmRaw)

/-- Embedding of `build_sql_with_ai` of `src/app_panel.py` (lines 195-219), same
structure over the panel's sanitizer. -/
def build_sql_with_ai_panel (hasClient : Bool) (llmRaw : List Char) : List Char :=
  if hasClient = false then [] else sanitize_sql_panel (pstrip llmRaw)

/-- Embedding of `ai_summary_paragraph` of `src/app.py` (lines 172-192), abstracted over
the result-set row count and the LLM's summary completion.  The second
component counts LLM calls performed. -/
def ai_summary_paragraph (hasClient : Bool) (dfRows : Nat) (llmOut : List Char) :
    List Char × Nat :=
  if hasClient = false then (msgNoKeySummary, 0)
  else if dfRows = 0 then (msgNoData, 0)
  else (llmOut, 1)

/-- Finding title of the exception handler of `src/app_panel.py` line 340. -/
def panelQueryErrorTitle : List Char := "Erro ao consultar".toList

/-- Embedding of `ai_key_findings` of `src/app_panel.py` (lines 221-254): the
two guard cases return fixed findings with zero LLM calls; the main path
raises `TypeError` before any LLM call is made, because the call's
`response_format` argument (line 241) is a set literal holding an unhashable
dict.  The `ok` payload carries the findings and the LLM-call count. -/
def ai_key_findings (hasClient : Bool) (dfRows : Nat) :
    Except Unit (List (List Char × List Char) × Nat) :=
  if hasClient = false then Except.ok ([panelNoKeyFinding], 0)
  else if dfRows = 0 then Except.ok ([panelNoDataFinding], 0)
  else Except.error ()

/-- Observable outcome of one pending-turn processing pass of `src/app.py`
(lines 237-259): the stored answer (`th["a"]`), the stored statement
(`th["sql"]`), the list of statements handed to `bq.query`, and how many LLM
summarization calls were made. -/
structure TurnOutcome where
  answer : List Char
  sqlField : List Char
  executed : List (List Char)
  summaryLlmCalls : Nat
deriving DecidableEq

/-- The pending-turn processing block of `src/app.py` (lines 237-259).
`whRows` is the warehouse oracle giving the row count the warehouse returns
for an executed statement; `llmSummary` is the summarization completion
oracle. -/
def process_turn (bqTable : List Char) (hasClient : Bool) (llmRaw : List Char)
    (whRows : List Char → Nat) (llmSummary : List Char) : TurnOutcome :=
  let sql := build_sql_with_ai hasClient llmRaw
  if sql = [] ∨ sql_is_safe bqTable sql = false then
    { answer := msgUnsafe, sqlField := sql, executed := [], summaryLlmCalls := 0 }
  else
    let sql2 := ensure_limit sql 1000
    let s := ai_summary_paragraph hasClient (whRows sql2) llmSummary
    { answer := s.1, sqlField := sql2, executed := [sql2], summaryLlmCalls := s.2 }

/-- Observable outcome of one pending processing pass of `src/app_panel.py`
(lines 325-343): the stored findings, the stored `"sql"` field (`none` models
the item's initial `None`, left in place when the findings call raises), the
statements handed to `bq.query`, and the LLM findings-call count. -/
structure PanelOutcome where
  findings : List (List Char × List Char)
  sqlField : Option (List Char)
  executed : List (List Char)
  findingsLlmCalls : Nat
deriving DecidableEq

/-- The pending processing block of `src/app_panel.py` (lines 325-343).  The
rejected branch stores `sql or ""`, i.e. the (possibly empty) sanitized
statement; on the execute path the warehouse is queried first, and the
`TypeError` raised inside `ai_key_findings` is caught by the block's
`except`, which stores an error finding carrying the exception text
(`tyErrText`, an oracle of the runtime's message) and leaves the `"sql"`
field at its initial `None`. -/
def process_pending_panel (bqTable : List Char) (hasClient : Bool) (llmRaw : List Char)
    (whRows : List Char → Nat) (tyErrText : List Char) : PanelOutcome :=
  let sql := build_sql_with_ai_panel hasClient llmRaw
  if sql = [] ∨ sql_is_safe_panel bqTable sql = false then
    { findings := [panelInvalidFinding], sqlField := some sql, executed := [],
      findingsLlmCalls := 0 }
  else
    let sql2 := ensure_limit_panel sql 1000
    match ai_key_findings hasClient (whRows sql2) with
    | Except.ok fn =>
      { findings := fn.1, sqlField := some sql2, executed := [sql2],
        findingsLlmCalls := fn.2 }
    | Except.error _ =>
      { findings := [(panelQueryErrorTitle, tyErrText)], sqlField := none,
        executed := [sql2], findingsLlmCalls := 0 }

/-- Does the string end with a whitespace character? -/
def lastIsSpace (s : List Char) : Bool :=
  match s.reverse with
  | [] => false
  | c :: _ => isSpace c

/-! ### Toolbox: `takeWhile` / `dropWhile` -/

theorem dropWhile_cons_neg {p : Char → Bool} {c : Char} {l : List Char} (h : p c = false) :
    List.dropWhile p (c :: l) = c :: l := by
  simp [List.dropWhile_cons, h]

theorem takeWhile_cons_neg {p : Char → Bool} {c : Char} {l : List Char} (h : p c = false) :
    List.takeWhile p (c :: l) = [] := by
  simp [List.takeWhile_cons, h]

theorem dropWhile_all_append {p : Char → Bool} {l r : List Char}
    (h : ∀ c ∈ l, p c = true) : List.dropWhile p (l ++ r) = List.dropWhile p r := by
  induction l with
  | nil => rfl
  | cons a tl ih =>
    have ha : p a = true := h a (by simp)
    simpa [List.dropWhile_cons, ha] using ih (fun c hc => h c (by simp [hc]))

theorem takeWhile_all_append {p : Char → Bool} {l r : List Char}
    (h : ∀ c ∈ l, p c = true) : List.takeWhile p (l ++ r) = l ++ List.takeWhile p r := by
  induction l with
  | nil => rfl
  | cons a tl ih =>
    have ha : p a = true := h a (by simp)
    simpa [List.takeWhile_cons, ha] using ih (fun c hc => h c (by simp [hc]))

theorem mem_takeWhile_p {p : Char → Bool} {l : List Char} :
    ∀ c ∈ List.takeWhile p l, p c = true := by
  induction l with
  | nil => simp
  | cons a tl ih =>
    intro c hc
    by_cases ha : p a = true
    · rw [List.takeWhile_cons, if_pos ha] at hc
      rcases List.mem_cons.1 hc with rfl | hc
      · exact ha
      · exact ih c hc
    · rw [List.takeWhile_cons, if_neg ha] at hc
      simp at hc

theorem dropWhile_head_neg {p : Char → Bool} {l : List Char} {c : Char} {r : List Char}
    (h : List.dropWhile p l = c :: r) : p c = false := by
  induction l with
  | nil => simp [List.dropWhile] at h
  | cons a tl ih =>
    by_cases ha : p a = true
    · rw [List.dropWhile_cons, if_pos ha] at h
      exact ih h
    · rw [List.dropWhile_cons, if_neg ha] at h
      cases h
      exact Bool.eq_false_iff.2 ha

theorem dropWhile_append_ne {p : Char → Bool} {a b : List Char}
    (h : List.dropWhile p a ≠ []) :
    List.dropWhile p (a ++ b) = List.dropWhile p a ++ b := by
  induction a with
  | nil => simp [List.dropWhile] at h
  | cons c tl ih =>
    by_cases hc : p c = true
    · rw [List.dropWhile_cons, if_pos hc] at h ⊢
      simpa [List.dropWhile_cons, hc] using ih h
    · rw [List.dropWhile_cons, if_neg hc] at h ⊢
      simp [List.dropWhile_cons, hc]

/-! ### Toolbox: character classes -/

theorem space_cases {c : Char} (h : isSpace c = true) :
    c = ' ' ∨ c = '\t' ∨ c = '\n' ∨ c = '\r' ∨ c = '\x0b' ∨ c = '\x0c' := by
  simpa [isSpace, or_assoc] using h

theorem toLower_of_space {c : Char} (h : isSpace c = true) : Char.toLower c = c := by
  rcases space_cases h with rfl | rfl | rfl | rfl | rfl | rfl <;> decide

theorem isWordChar_of_space {c : Char} (h : isSpace c = true) : isWordChar c = false := by
  rcases space_cases h with rfl | rfl | rfl | rfl | rfl | rfl <;> decide

theorem isDigit_of_space {c : Char} (h : isSpace c = true) : isDigit c = false := by
  rcases space_cases h with rfl | rfl | rfl | rfl | rfl | rfl <;> decide

theorem not_space_of_digit {c : Char} (h : isDigit c = true) : isSpace c = false := by
  by_contra hs
  have := isDigit_of_space (c := c) (by simpa using hs)
  simp [h] at this

theorem not_space_of_toLower {c d : Char} (h : Char.toLower c = d)
    (hd : isSpace d = false) : isSpace c = false := by
  by_contra hc
  have hc' : isSpace c = true := by simpa using hc
  rw [toLower_of_space hc'] at h
  rw [h] at hc'
  simp [hc'] at hd

/-! ### Toolbox: `strip` structure -/

theorem lstrip_decomp (s : List Char) :
    ∃ w, s = w ++ lstrip s ∧ ∀ c ∈ w, isSpace c = true := by
  refine ⟨s.takeWhile isSpace, ?_, fun c hc => mem_takeWhile_p c hc⟩
  exact (List.takeWhile_append_dropWhile (p := isSpace) (l := s)).symm

theorem rstrip_decomp (s : List Char) :
    ∃ w, s = rstrip s ++ w ∧ ∀ c ∈ w, isSpace c = true := by
  refine ⟨(s.reverse.takeWhile isSpace).reverse, ?_, ?_⟩
  · conv_lhs => rw [← List.reverse_reverse s,
      ← List.takeWhile_append_dropWhile (p := isSpace) (l := s.reverse)]
    rw [List.reverse_append]
    rfl
  · intro c hc
    exact mem_takeWhile_p c (List.mem_reverse.1 hc)

theorem pstrip_decomp (s : List Char) :
    ∃ w1 w2, s = w1 ++ pstrip s ++ w2 ∧ (∀ c ∈ w1, isSpace c = true) ∧
      ∀ c ∈ w2, isSpace c = true := by
  obtain ⟨w1, h1, hw1⟩ := lstrip_decomp s
  obtain ⟨w2, h2, hw2⟩ := rstrip_decomp (lstrip s)
  refine ⟨w1, w2, ?_, hw1, hw2⟩
  conv_lhs => rw [h1, h2]
  simp [pstrip]

theorem lstrip_head {s : List Char} {c : Char} {r : List Char}
    (h : lstrip s = c :: r) : isSpace c = false := dropWhile_head_neg h

theorem pstrip_to_lstrip (s : List Char) :
    ∃ w, lstrip s = pstrip s ++ w ∧ ∀ c ∈ w, isSpace c = true := rstrip_decomp (lstrip s)

theorem pstrip_head {s : List Char} {c : Char} {r : List Char}
    (h : pstrip s = c :: r) : isSpace c = false := by
  obtain ⟨w, hw, _⟩ := pstrip_to_lstrip s
  rw [h] at hw
  exact lstrip_head hw

theorem rstrip_of_rev_cons {s : List Char} {c : Char} {r : List Char}
    (h : s.reverse = c :: r) (hc : isSpace c = false) : rstrip s = s := by
  rw [rstrip, h, dropWhile_cons_neg hc, ← h, List.reverse_reverse]

theorem lstrip_cons_neg {c : Char} {l : List Char} (hc : isSpace c = false) :
    lstrip (c :: l) = c :: l := dropWhile_cons_neg hc

theorem rstrip_append_allspace {a b : List Char} (h : ∀ c ∈ b, isSpace c = true) :
    rstrip (a ++ b) = rstrip a := by
  rw [rstrip, List.reverse_append,
    dropWhile_all_append (fun c hc => h c (List.mem_reverse.1 hc))]
  rfl

theorem rstrip_eq_nil_allspace {b : List Char} (h : rstrip b = []) :
    ∀ c ∈ b, isSpace c = true := by
  intro c hc
  have hrev : List.dropWhile isSpace b.reverse = [] := by
    have := congrArg List.reverse h
    rwa [rstrip, List.reverse_reverse] at this
  have hb : b.reverse = List.takeWhile isSpace b.reverse := by
    conv_lhs => rw [← List.takeWhile_append_dropWhile (p := isSpace) (l := b.reverse)]
    rw [hrev, List.append_nil]
  have : c ∈ List.takeWhile isSpace b.reverse := by
    rw [← hb]; exact List.mem_reverse.2 hc
  exact mem_takeWhile_p c this

theorem lastIsSpace_false_rstrip {s : List Char} (h : lastIsSpace s = false) :
    rstrip s = s := by
  rcases hrev : s.reverse with _ | ⟨c, r⟩
  · have : s = [] := by simpa using congrArg List.reverse hrev
    simp [this, rstrip]
  · have hc : isSpace c = false := by
      have := h
      rw [lastIsSpace, hrev] at this
      exact this
    exact rstrip_of_rev_cons hrev hc

/-! ### Toolbox: substring (infix) reasoning -/

theorem nil_is_infix (b : List Char) : ([] : List Char) <:+: b := ⟨[], b, rfl⟩

theorem pre_to_mid {t u : List Char} (h : t <+: u) : t <:+: u := by
  obtain ⟨r, hr⟩ := h
  exact ⟨[], r, by simpa using hr⟩

theorem suf_to_mid {t u : List Char} (h : t <:+ u) : t <:+: u := by
  obtain ⟨r, hr⟩ := h
  exact ⟨r, [], by simpa using hr⟩

theorem mid_ext_right {t a : List Char} (b : List Char) (h : t <:+: a) : t <:+: a ++ b := by
  obtain ⟨u, v, huv⟩ := h
  exact ⟨u, v ++ b, by rw [← huv]; simp⟩

theorem mid_ext_left {t b : List Char} (a : List Char) (h : t <:+: b) : t <:+: a ++ b := by
  obtain ⟨u, v, huv⟩ := h
  exact ⟨a ++ u, v, by rw [← huv]; simp⟩

theorem mid_chars {t u : List Char} (h : t <:+: u) : ∀ c ∈ t, c ∈ u := by
  intro c hc
  exact h.sublist.subset hc

theorem mid_map_lower {t u : List Char} (h : t <:+: u) : lowerStr t <:+: lowerStr u := by
  obtain ⟨s, e, hse⟩ := h
  exact ⟨lowerStr s, lowerStr e, by rw [← hse]; simp [lowerStr]⟩

theorem mid_split {t a b : List Char} (h : t <:+: a ++ b) :
    t <:+: a ∨ t <:+: b ∨
      ∃ t1 t2, t = t1 ++ t2 ∧ t1 ≠ [] ∧ t2 ≠ [] ∧ t1 <:+ a ∧ t2 <+: b := by
  obtain ⟨u, v, huv⟩ := h
  rw [List.append_assoc] at huv
  rcases List.append_eq_append_iff.1 huv.symm with ⟨a', _, ha2⟩ | ⟨c', hc1, hc2⟩
  · exact Or.inr (Or.inl ⟨a', v, by simp [ha2]⟩)
  · rcases List.append_eq_append_iff.1 hc2 with ⟨w, hw1, _⟩ | ⟨w, hw1, hw2⟩
    · exact Or.inl ⟨u, w, by simp [hc1, hw1]⟩
    · rcases eq_or_ne c' [] with rfl | hne1
      · refine Or.inr (Or.inl (pre_to_mid ⟨v, ?_⟩))
        simp at hw1
        rw [hw1, ← hw2]
      · rcases eq_or_ne w [] with rfl | hne2
        · refine Or.inl (suf_to_mid ⟨u, ?_⟩)
          rw [List.append_nil] at hw1
          rw [hw1, hc1]
        · exact Or.inr (Or.inr ⟨c', w, hw1, hne1, hne2, ⟨u, hc1.symm⟩, ⟨v, hw2.symm⟩⟩)

theorem mid_right_all {p : Char → Bool} {t a b : List Char}
    (hb : ∀ c ∈ b, p c = true) (ht : ∀ c ∈ t, p c = false)
    (h : t <:+: a ++ b) : t <:+: a := by
  rcases mid_split h with h1 | h1 | ⟨t1, t2, heq, _, hne2, _, hpb⟩
  · exact h1
  · cases t with
    | nil => exact nil_is_infix a
    | cons c r =>
      have h1' : c ∈ b := mid_chars h1 c (by simp)
      have := hb c h1'
      have := ht c (by simp)
      simp_all
  · rcases t2 with _ | ⟨c, r⟩
    · exact absurd rfl hne2
    · obtain ⟨v, hv⟩ := hpb
      have hcb : c ∈ b := by rw [← hv]; simp
      have hct : c ∈ t := by rw [heq]; simp
      have := hb c hcb
      have := ht c hct
      simp_all

theorem mid_left_all {p : Char → Bool} {t a b : List Char}
    (ha : ∀ c ∈ a, p c = true) (ht : ∀ c ∈ t, p c = false)
    (h : t <:+: a ++ b) : t <:+: b := by
  rcases mid_split h with h1 | h1 | ⟨t1, t2, heq, hne1, _, hsa, _⟩
  · cases t with
    | nil => exact nil_is_infix b
    | cons c r =>
      have h1' : c ∈ a := mid_chars h1 c (by simp)
      have := ha c h1'
      have := ht c (by simp)
      simp_all
  · exact h1
  · rcases t1 with _ | ⟨c, r⟩
    · exact absurd rfl hne1
    · obtain ⟨v, hv⟩ := hsa
      have hca : c ∈ a := by rw [← hv]; simp
      have hct : c ∈ t := by rw [heq]; simp
      have := ha c hca
      have := ht c hct
      simp_all

/-! ### Toolbox: lowering and cleaning -/

theorem lowerStr_allspace {w : List Char} (h : ∀ c ∈ w, isSpace c = true) :
    ∀ c ∈ lowerStr w, isSpace c = true := by
  intro c hc
  obtain ⟨d, hd, rfl⟩ := List.mem_map.1 hc
  rw [toLower_of_space (h d hd)]
  exact h d hd

theorem lowerStr_append (a b : List Char) :
    lowerStr (a ++ b) = lowerStr a ++ lowerStr b := List.map_append _ a b

theorem clean_append (a b : List Char) :
    cleanTicksSpace (a ++ b) = cleanTicksSpace a ++ cleanTicksSpace b :=
  List.filter_append a b

theorem clean_allspace {w : List Char} (h : ∀ c ∈ w, isSpace c = true) :
    cleanTicksSpace w = [] := by
  induction w with
  | nil => rfl
  | cons c tl ih =>
    have hc : isSpace c = true := h c (by simp)
    have : (!(c = Char.ofNat 96 || isSpace c)) = false := by simp [hc]
    simp only [cleanTicksSpace, List.filter_cons, this]
    exact ih (fun d hd => h d (by simp [hd]))

theorem clean_lower_pstrip (s : List Char) :
    cleanTicksSpace (lowerStr (pstrip s)) = cleanTicksSpace (lowerStr s) := by
  obtain ⟨w1, w2, hs, hw1, hw2⟩ := pstrip_decomp s
  conv_rhs => rw [hs]
  rw [lowerStr_append, lowerStr_append, clean_append, clean_append,
    clean_allspace (lowerStr_allspace hw1), clean_allspace (lowerStr_allspace hw2)]
  simp

/-! ### Toolbox: decimal digit strings -/

theorem digitChar_digit {m : Nat} (h : m < 10) : isDigit (Nat.digitChar m) = true := by
  interval_cases m <;> decide

theorem toDigitsCore_digits (fuel : Nat) :
    ∀ (n : Nat) (ds : List Char), (∀ c ∈ ds, isDigit c = true) →
      ∀ c ∈ Nat.toDigitsCore 10 fuel n ds, isDigit c = true := by
  induction fuel with
  | zero =>
    intro n ds hds c hc
    rw [Nat.toDigitsCore] at hc
    exact hds c hc
  | succ fuel ih =>
    intro n ds hds c hc
    rw [Nat.toDigitsCore] at hc
    have hd : isDigit ((n % 10).digitChar) = true :=
      digitChar_digit (Nat.mod_lt n (by norm_num))
    by_cases hz : n / 10 = 0
    · rw [if_pos hz] at hc
      rcases List.mem_cons.1 hc with rfl | hc
      · exact hd
      · exact hds c hc
    · rw [if_neg hz] at hc
      refine ih (n / 10) ((n % 10).digitChar :: ds) ?_ c hc
      intro d hd'
      rcases List.mem_cons.1 hd' with rfl | hd'
      · exact hd
      · exact hds d hd'

theorem toDigitsCore_ne_nil (fuel : Nat) :
    ∀ (n : Nat) (ds : List Char), ds ≠ [] → Nat.toDigitsCore 10 fuel n ds ≠ [] := by
  induction fuel with
  | zero =>
    intro n ds hds
    rw [Nat.toDigitsCore]
    exact hds
  | succ fuel ih =>
    intro n ds hds
    rw [Nat.toDigitsCore]
    by_cases hz : n / 10 = 0
    · rw [if_pos hz]; simp
    · rw [if_neg hz]
      exact ih (n / 10) _ (by simp)

theorem natStr_eq (n : Nat) : natStr n = Nat.toDigitsCore 10 (n + 1) n [] := rfl

theorem natStr_digits (n : Nat) : ∀ c ∈ natStr n, isDigit c = true := by
  rw [natStr_eq]
  exact toDigitsCore_digits (n + 1) n [] (by simp)

theorem natStr_ne_nil (n : Nat) : natStr n ≠ [] := by
  rw [natStr_eq, Nat.toDigitsCore]
  by_cases hz : n / 10 = 0
  · rw [if_pos hz]; simp
  · rw [if_neg hz]
    exact toDigitsCore_ne_nil n (n / 10) _ (by simp)

theorem natStr_rev_cons (n : Nat) :
    ∃ d r, (natStr n).reverse = d :: r ∧ isDigit d = true := by
  rcases hrev : (natStr n).reverse with _ | ⟨d, r⟩
  · exact absurd (by simpa using congrArg List.reverse hrev) (natStr_ne_nil n)
  · refine ⟨d, r, rfl, ?_⟩
    have : d ∈ (natStr n).reverse := by rw [hrev]; simp
    exact natStr_digits n d (List.mem_reverse.1 this)

/-! ### Toolbox: `take`/`drop` on explicit cons prefixes -/

theorem take5_cons (a b c d e : Char) (l : List Char) :
    List.take 5 (a :: b :: c :: d :: e :: l) = [a, b, c, d, e] := rfl

theorem drop5_cons (a b c d e : Char) (l : List Char) :
    List.drop 5 (a :: b :: c :: d :: e :: l) = l := rfl

theorem take6_cons (a b c d e f : Char) (l : List Char) :
    List.take 6 (a :: b :: c :: d :: e :: f :: l) = [a, b, c, d, e, f] := rfl

theorem drop6_cons (a b c d e f : Char) (l : List Char) :
    List.drop 6 (a :: b :: c :: d :: e :: f :: l) = l := rfl

/-! ### `ensure_limit` structure -/

theorem nlLimit_rev (n : Nat) :
    (nlLimit n).reverse =
      (natStr n).reverse ++ (' ' :: 'T' :: 'I' :: 'M' :: 'I' :: 'L' :: '\n' :: []) := by
  have hlim : "LIMIT ".toList = ['L', 'I', 'M', 'I', 'T', ' '] := rfl
  rw [nlLimit, hlim]
  simp

theorem hasTrailingLimit_append (s : List Char) (n : Nat) :
    hasTrailingLimit (s ++ nlLimit n) = true := by
  obtain ⟨d, dr, hds, hd⟩ := natStr_rev_cons n
  have hrev : (s ++ nlLimit n).reverse =
      (natStr n).reverse ++ (' ' :: 'T' :: 'I' :: 'M' :: 'I' :: 'L' :: '\n' :: s.reverse) := by
    rw [List.reverse_append, nlLimit_rev]
    simp
  have hdigits : ∀ c ∈ (natStr n).reverse, isDigit c = true :=
    fun c hc => natStr_digits n c (List.mem_reverse.1 hc)
  rw [hasTrailingLimit, hrev]
  have h1 : List.dropWhile isSpace
      ((natStr n).reverse ++ (' ' :: 'T' :: 'I' :: 'M' :: 'I' :: 'L' :: '\n' :: s.reverse)) =
      (natStr n).reverse ++ (' ' :: 'T' :: 'I' :: 'M' :: 'I' :: 'L' :: '\n' :: s.reverse) := by
    rw [hds]
    exact dropWhile_cons_neg (not_space_of_digit hd)
  rw [h1]
  have h2 : List.takeWhile isDigit
      ((natStr n).reverse ++ (' ' :: 'T' :: 'I' :: 'M' :: 'I' :: 'L' :: '\n' :: s.reverse)) =
      (natStr n).reverse := by
    rw [takeWhile_all_append hdigits, takeWhile_cons_neg (by decide)]
    simp
  have h3 : List.dropWhile isDigit
      ((natStr n).reverse ++ (' ' :: 'T' :: 'I' :: 'M' :: 'I' :: 'L' :: '\n' :: s.reverse)) =
      ' ' :: 'T' :: 'I' :: 'M' :: 'I' :: 'L' :: '\n' :: s.reverse := by
    rw [dropWhile_all_append hdigits]
    exact dropWhile_cons_neg (by decide)
  rw [h2, h3]
  have h4 : List.takeWhile isSpace (' ' :: 'T' :: 'I' :: 'M' :: 'I' :: 'L' :: '\n' :: s.reverse) =
      [' '] := by
    rw [List.takeWhile_cons, if_pos (by decide), takeWhile_cons_neg (by decide)]
  have h5 : List.dropWhile isSpace (' ' :: 'T' :: 'I' :: 'M' :: 'I' :: 'L' :: '\n' :: s.reverse) =
      'T' :: 'I' :: 'M' :: 'I' :: 'L' :: '\n' :: s.reverse := by
    rw [List.dropWhile_cons, if_pos (by decide)]
    exact dropWhile_cons_neg (by decide)
  rw [h4, h5, take5_cons, drop5_cons]
  have hne : (natStr n).reverse ≠ [] := by rw [hds]; simp
  simp [hne, noWordHead]
  decide

/-! ### Toolbox: digits are fixed by lowercasing -/

theorem toLower_of_digit {c : Char} (h : isDigit c = true) : Char.toLower c = c := by
  have hle : c ≤ '9' := by
    have := h
    simp [isDigit] at this
    exact this.2
  have hnat : c.toNat ≤ 57 := by
    rw [Char.le_def] at hle
    rw [UInt32.le_def] at hle
    exact hle
  rw [Char.toLower]
  exact if_neg (by omega)

theorem lowerStr_digits {ds : List Char} (h : ∀ c ∈ ds, isDigit c = true) :
    lowerStr ds = ds := by
  induction ds with
  | nil => rfl
  | cons c tl ih =>
    rw [lowerStr, List.map_cons, toLower_of_digit (h c (by simp))]
    have := ih (fun d hd => h d (by simp [hd]))
    rw [lowerStr] at this
    rw [this]

theorem lowerStr_nlLimit (n : Nat) :
    lowerStr (nlLimit n) =
      '\n' :: 'l' :: 'i' :: 'm' :: 'i' :: 't' :: ' ' :: natStr n := by
  have hlim : "LIMIT ".toList = ['L', 'I', 'M', 'I', 'T', ' '] := rfl
  rw [nlLimit, hlim]
  simp only [lowerStr, List.map_cons, List.cons_append, List.nil_append, List.map_append]
  have h1 : Char.toLower '\n' = '\n' := by decide
  have h2 : Char.toLower 'L' = 'l' := by decide
  have h3 : Char.toLower 'I' = 'i' := by decide
  have h4 : Char.toLower 'M' = 'm' := by decide
  have h5 : Char.toLower 'T' = 't' := by decide
  have h6 : Char.toLower ' ' = ' ' := by decide
  have h7 : List.map Char.toLower (natStr n) = natStr n := lowerStr_digits (natStr_digits n)
  rw [h1, h2, h3, h4, h5, h6, h7]

/-! ### Toolbox: `strip` across an appended tail -/

theorem pstrip_ne_nil_lstrip {s : List Char} (h : pstrip s ≠ []) : lstrip s ≠ [] := by
  intro hl
  exact h (by rw [pstrip, hl]; rfl)

theorem pstrip_append_tail {sql tail : List Char} (h : pstrip sql ≠ [])
    {d : Char} {dr : List Char} (htail : tail.reverse = d :: dr) (hd : isSpace d = false) :
    ∃ w, (∀ c ∈ w, isSpace c = true) ∧
      pstrip (sql ++ tail) = pstrip sql ++ w ++ tail := by
  have hl : lstrip sql ≠ [] := pstrip_ne_nil_lstrip h
  have hstep1 : lstrip (sql ++ tail) = lstrip sql ++ tail := dropWhile_append_ne hl
  have hrev : (lstrip sql ++ tail).reverse = d :: (dr ++ (lstrip sql).reverse) := by
    rw [List.reverse_append, htail]
    rfl
  have hstep2 : rstrip (lstrip sql ++ tail) = lstrip sql ++ tail :=
    rstrip_of_rev_cons hrev hd
  obtain ⟨w, hw, hwsp⟩ := pstrip_to_lstrip sql
  refine ⟨w, hwsp, ?_⟩
  rw [pstrip, hstep1, hstep2, hw, List.append_assoc]

/-! ### Toolbox: `startsSelect` under extension -/

theorem startsSelect_iff {t : List Char} :
    startsSelect t = true ↔
      ∃ v, t.dropWhile isSpace = selectKw ++ v ∧ noWordHead v = true := by
  rw [startsSelect]
  constructor
  · intro h
    rw [Bool.and_eq_true] at h
    obtain ⟨hpre, hb⟩ := h
    obtain ⟨v, hv⟩ := List.isPrefixOf_iff_prefix.1 hpre
    refine ⟨v, hv.symm, ?_⟩
    have : (t.dropWhile isSpace).drop 6 = v := by
      rw [← hv]
      have h6 : (6 : Nat) = selectKw.length := rfl
      rw [h6, List.drop_left]
    rwa [this] at hb
  · rintro ⟨v, hv, hb⟩
    rw [Bool.and_eq_true]
    constructor
    · exact List.isPrefixOf_iff_prefix.2 ⟨v, hv.symm⟩
    · have : (t.dropWhile isSpace).drop 6 = v := by
        rw [hv]
        have h6 : (6 : Nat) = selectKw.length := rfl
        rw [h6, List.drop_left]
      rwa [this]

theorem startsSelect_append {t : List Char} {c : Char} {r : List Char}
    (h : startsSelect t = true) (hc : isWordChar c = false) :
    startsSelect (t ++ c :: r) = true := by
  obtain ⟨v, hv, hb⟩ := startsSelect_iff.1 h
  have hne : t.dropWhile isSpace ≠ [] := by
    rw [hv]
    simp [selectKw]
  rw [startsSelect_iff]
  refine ⟨v ++ c :: r, ?_, ?_⟩
  · rw [dropWhile_append_ne hne, hv, List.append_assoc]
  · cases v with
    | nil => simpa [noWordHead] using hc
    | cons x xs =>
      rw [List.cons_append, noWordHead]
      rw [noWordHead] at hb
      exact hb

/-! ### Toolbox: unfolding `sql_is_safe` -/

theorem safe_iff {bqTable sql : List Char} :
    sql_is_safe bqTable sql = true ↔
      startsSelect (lowerStr (pstrip sql)) = true ∧
      (∀ tok ∈ forbidden, ¬ tok <:+: lowerStr (pstrip sql)) ∧
      cleanTicksSpace (lowerStr bqTable) <:+: cleanTicksSpace (lowerStr (pstrip sql)) := by
  rw [sql_is_safe]
  simp only [Bool.and_eq_true, Bool.not_eq_true', List.any_eq_false, decide_eq_true_eq,
    decide_eq_false_iff_not, and_assoc]

/-- Shared facts about the denylist tokens, checked by evaluation. -/
theorem forbidden_facts :
    ∀ tok ∈ forbidden, tok ≠ [] ∧ (∀ c ∈ tok, isSpace c = false) ∧
      (∀ c ∈ tok, isDigit c = false) ∧ ¬ tok <:+: "limit".toList ∧
      ¬ tok <:+: "select col from".toList := by decide

/-- Appending the `LIMIT` tail of `ensure_limit` preserves every check of
`sql_is_safe`, and the result always carries a trailing row ceiling. -/
theorem safe_ensure_limit {bqTable sql : List Char} (n : Nat)
    (h : sql_is_safe bqTable sql = true) :
    sql_is_safe bqTable (ensure_limit sql n) = true ∧
      hasTrailingLimit (ensure_limit sql n) = true := by
  by_cases hl : hasTrailingLimit sql = true
  · rw [ensure_limit, if_pos hl]
    exact ⟨h, hl⟩
  · rw [ensure_limit, if_neg hl]
    refine ⟨?_, hasTrailingLimit_append sql n⟩
    obtain ⟨h1, h2, h3⟩ := safe_iff.1 h
    have hpne : pstrip sql ≠ [] := by
      intro he
      rw [he] at h1
      simp [startsSelect, lowerStr, selectKw, List.isPrefixOf] at h1
    obtain ⟨d, dr, hds, hd⟩ := natStr_rev_cons n
    have htailrev : (nlLimit n).reverse = d :: (dr ++ [' ', 'T', 'I', 'M', 'I', 'L', '\n']) := by
      rw [nlLimit_rev, hds]
      simp
    obtain ⟨w, hwsp, hps⟩ := pstrip_append_tail hpne htailrev (not_space_of_digit hd)
    have hWsp : ∀ c ∈ lowerStr w, isSpace c = true := lowerStr_allspace hwsp
    rw [safe_iff, hps, lowerStr_append, lowerStr_append, lowerStr_nlLimit, List.append_assoc]
    have hBhead : ∃ c r,
        lowerStr w ++ ('\n' :: 'l' :: 'i' :: 'm' :: 'i' :: 't' :: ' ' :: natStr n) = c :: r ∧
          isSpace c = true := by
      rcases hlw : lowerStr w with _ | ⟨c, r⟩
      · exact ⟨'\n', _, rfl, by decide⟩
      · exact ⟨c, _, rfl, hWsp c (by rw [hlw]; simp)⟩
    obtain ⟨bc, br, hcr, hcsp⟩ := hBhead
    refine ⟨?_, ?_, ?_⟩
    · -- the statement still begins with the select keyword
      rw [hcr]
      exact startsSelect_append h1 (isWordChar_of_space hcsp)
    · -- no forbidden token appears in the extended statement
      intro tok htok hmid
      obtain ⟨hne, hnsp, hnd, hnlim, _⟩ := forbidden_facts tok htok
      rcases mid_split hmid with hA | hB | ⟨t1, t2, heq, _, hne2, _, hpre⟩
      · exact h2 tok htok hA
      · have hB' : tok <:+:
            (lowerStr w ++ ['\n']) ++ ('l' :: 'i' :: 'm' :: 'i' :: 't' :: ' ' :: natStr n) := by
          rw [List.append_assoc]
          simpa using hB
        have hsp : ∀ c ∈ lowerStr w ++ ['\n'], isSpace c = true := by
          intro c hc
          rcases List.mem_append.1 hc with hc | hc
          · exact hWsp c hc
          · simp at hc
            rw [hc]
            decide
        have hlim : tok <:+: ('l' :: 'i' :: 'm' :: 'i' :: 't' :: ' ' :: natStr n) :=
          mid_left_all hsp hnsp hB'
        have hlim2 : tok <:+: ("limit".toList ++ (' ' :: natStr n)) := by simpa using hlim
        have hpd : ∀ c ∈ (' ' :: natStr n), (isSpace c || isDigit c) = true := by
          intro c hc
          rcases List.mem_cons.1 hc with rfl | hc
          · decide
          · simp [natStr_digits n c hc]
        have htd : ∀ c ∈ tok, (isSpace c || isDigit c) = false := by
          intro c hc
          simp [hnsp c hc, hnd c hc]
        exact hnlim (mid_right_all hpd htd hlim2)
      · obtain ⟨c, r2, rfl⟩ := List.exists_cons_of_ne_nil hne2
        obtain ⟨v, hv⟩ := hpre
        have hchead : isSpace c = true := by
          rw [List.cons_append, hcr] at hv
          cases hv
          exact hcsp
        have hct : c ∈ tok := by rw [heq]; simp
        have := hnsp c hct
        simp [hchead] at this
    · -- the cleaned target identifier still occurs
      rw [clean_append, clean_append, clean_allspace hWsp, List.nil_append]
      exact mid_ext_right _ h3

/-! ### Toolbox: forbidden tokens survive stripping -/

theorem tok_mid_pstrip {tok sql : List Char} (hnsp : ∀ c ∈ tok, isSpace c = false)
    (h : tok <:+: lowerStr sql) : tok <:+: lowerStr (pstrip sql) := by
  obtain ⟨w1, w2, hs, hw1, hw2⟩ := pstrip_decomp sql
  rw [hs, lowerStr_append, lowerStr_append] at h
  exact mid_left_all (lowerStr_allspace hw1) hnsp
    (mid_right_all (lowerStr_allspace hw2) hnsp h)

/-! ### Toolbox: `rstrip` across appends -/

theorem rstrip_append_ne {a b : List Char} (hb : rstrip b ≠ []) :
    rstrip (a ++ b) = a ++ rstrip b := by
  have hb' : List.dropWhile isSpace b.reverse ≠ [] := by
    intro he
    exact hb (by rw [rstrip, he]; rfl)
  rw [rstrip, List.reverse_append, dropWhile_append_ne hb', List.reverse_append,
    List.reverse_reverse]
  rfl

/-! ### Toolbox: trailing-terminator stripping is involutive -/

theorem dropWhile_idem {p : Char → Bool} {l : List Char} :
    List.dropWhile p (List.dropWhile p l) = List.dropWhile p l := by
  rcases hl : List.dropWhile p l with _ | ⟨c, r⟩
  · rfl
  · exact dropWhile_cons_neg (dropWhile_head_neg hl)

theorem rstripSemi_invol (z : List Char) : rstripSemi (rstripSemi z) = rstripSemi z := by
  rw [rstripSemi, rstripSemi, List.reverse_reverse, dropWhile_idem]

theorem sanitize_rstripSemi_fix (x : List Char) :
    rstripSemi (sanitize_sql x) = sanitize_sql x := by
  by_cases hx : x = []
  · subst hx
    rfl
  · simp only [sanitize_sql, if_neg hx]
    exact rstripSemi_invol _

/-! ### Toolbox: sanitizer output that starts with the select keyword -/

theorem matchSel_head {y : List Char} (h : matchSelAt none y = true) :
    ∃ c t, y = c :: t ∧ Char.toLower c = 's' ∧ isSpace c = false := by
  cases y with
  | nil =>
    exfalso
    revert h
    decide
  | cons c t =>
    rw [matchSelAt, Bool.and_eq_true, Bool.and_eq_true] at h
    obtain ⟨⟨h6, _⟩, _⟩ := h
    have h6' : lowerStr ((c :: t).take 6) = selectKw := by
      exact of_decide_eq_true h6
    have htake : (c :: t).take 6 = c :: t.take 5 := rfl
    rw [htake, lowerStr, List.map_cons] at h6'
    have hc : Char.toLower c = 's' := by
      have := congrArg (fun l => l.headD 'x') h6'
      simpa [selectKw] using this
    exact ⟨c, t, rfl, hc, not_space_of_toLower hc (by decide)⟩

theorem stripLabel_of_sel {y : List Char} (h : matchSelAt none y = true) :
    stripLabel y = y := by
  rw [matchSelAt, Bool.and_eq_true, Bool.and_eq_true] at h
  obtain ⟨⟨h6, _⟩, _⟩ := h
  have h6' : lowerStr (y.take 6) = selectKw := of_decide_eq_true h6
  have h3 : lowerStr (y.take 3) = ['s', 'e', 'l'] := by
    have e1 : y.take 3 = (y.take 6).take 3 := by
      rw [List.take_take]
      norm_num
    have e2 : lowerStr ((y.take 6).take 3) = (lowerStr (y.take 6)).take 3 := by
      simp [lowerStr, List.map_take]
    rw [e1, e2, h6']
    rfl
  rw [stripLabel, if_neg]
  rw [h3]
  decide

theorem stripLeadFence_of_sel {y : List Char} (h : matchSelAt none y = true) :
    stripLeadFence y = y := by
  obtain ⟨c, t, rfl, hlow, _⟩ := matchSel_head h
  rw [stripLeadFence, if_neg]
  intro hf
  have htake : (c :: t).take 3 = c :: t.take 2 := rfl
  rw [htake] at hf
  have : c = Char.ofNat 96 := by
    have := congrArg (fun l => l.headD 'x') hf
    simpa [fence] using this
  rw [this] at hlow
  exact absurd hlow (by decide)

theorem stripTrailFence_of_clean {y : List Char} (h1 : lastIsSpace y = false)
    (h2 : fence.isSuffixOf y = false) : stripTrailFence y = y := by
  rw [stripTrailFence, if_neg (by simp [h2]), if_neg]
  intro hf
  have hrevp : (fence ++ ['\n']).reverse.isPrefixOf y.reverse = true := hf
  have hrev : (fence ++ ['\n']).reverse = '\n' :: fence.reverse := rfl
  rw [hrev] at hrevp
  rcases hy : y.reverse with _ | ⟨c, r⟩
  · rw [hy] at hrevp
    exact absurd hrevp (by decide)
  · rw [hy] at hrevp
    simp only [List.isPrefixOf, Bool.and_eq_true] at hrevp
    have hc : c = '\n' := (beq_iff_eq.1 hrevp.1).symm
    rw [lastIsSpace, hy, hc] at h1
    simp [isSpace] at h1

theorem findSel_of_head {y : List Char} (h : matchSelAt none y = true) :
    findSel none y = some y := by
  obtain ⟨c, t, rfl, _, _⟩ := matchSel_head h
  rw [findSel, if_pos h]

theorem pstrip_fix {c : Char} {t : List Char} (hc : isSpace c = false)
    (hlast : lastIsSpace (c :: t) = false) : pstrip (c :: t) = c :: t := by
  rw [pstrip, lstrip_cons_neg hc, lastIsSpace_false_rstrip hlast]

/-! ### Toolbox: the panel helpers are inert on backslash-free input -/

theorem toNat_ofNat_valid {m : Nat} (h : Nat.isValidChar m) : (Char.ofNat m).toNat = m := by
  simp [Char.ofNat, h]
  rfl

theorem eq_backslash_of_toLower {c : Char} (h : Char.toLower c = '\\') : c = '\\' := by
  by_cases hr : c.toNat ≥ 65 ∧ c.toNat ≤ 90
  · exfalso
    have hv : Char.toLower c = Char.ofNat (c.toNat + 32) := by
      rw [Char.toLower, if_pos hr]
    rw [hv] at h
    have hval : Nat.isValidChar (c.toNat + 32) := Or.inl (by omega)
    have h92 : (Char.ofNat (c.toNat + 32)).toNat = c.toNat + 32 := toNat_ofNat_valid hval
    rw [h] at h92
    have h92' : (92 : Nat) = c.toNat + 32 := by simpa using h92
    omega
  · rw [Char.toLower, if_neg hr] at h
    exact h

theorem backslash_mem_of_lower {L : List Char} (h : '\\' ∈ lowerStr L) : '\\' ∈ L := by
  obtain ⟨c, hc, hlc⟩ := List.mem_map.1 h
  rwa [eq_backslash_of_toLower hlc] at hc

theorem pstrip_sub {x : List Char} : ∀ c ∈ pstrip x, c ∈ x := by
  intro c hc
  obtain ⟨w1, w2, hs, _, _⟩ := pstrip_decomp x
  rw [hs]
  simp [hc]

theorem pstrip_idem (x : List Char) : pstrip (pstrip x) = pstrip x := by
  rcases hrev : (pstrip x).reverse with _ | ⟨c, r⟩
  · have hnil : pstrip x = [] := by simpa using congrArg List.reverse hrev
    rw [hnil]
    rfl
  · obtain ⟨d, t, hdt⟩ : ∃ d t, pstrip x = d :: t := by
      rcases hp : pstrip x with _ | ⟨d, t⟩
      · rw [hp] at hrev
        simp at hrev
      · exact ⟨d, t, rfl⟩
    have hd : isSpace d = false := pstrip_head hdt
    have hc : isSpace c = false := by
      have hform : (pstrip x).reverse = List.dropWhile isSpace (lstrip x).reverse := by
        rw [pstrip, rstrip, List.reverse_reverse]
      rw [hform] at hrev
      exact dropWhile_head_neg hrev
    rw [hdt] at hrev ⊢
    rw [pstrip, lstrip_cons_neg hd]
    exact rstrip_of_rev_cons hrev hc

theorem stripLabelPanel_inert {t : List Char} (h : ∀ c ∈ t, c ≠ '\\') :
    stripLabelPanel t = t := by
  rw [stripLabelPanel, if_neg]
  intro hc
  have hm : '\\' ∈ lowerStr (t.take 4) := by
    rw [hc]
    decide
  exact h '\\' (List.take_subset 4 t (backslash_mem_of_lower hm)) rfl

theorem stripLeadFencePanel_inert {t : List Char} (h : ∀ c ∈ t, c ≠ '\\') :
    stripLeadFencePanel t = t := by
  rw [stripLeadFencePanel]
  by_cases hf : t.take 3 = fence
  · rw [if_pos hf, if_neg, if_neg]
    · intro hc
      have hm : '\\' ∈ (t.drop 3).take 1 := by
        rw [hc]
        decide
      exact h '\\' (List.drop_subset 3 t (List.take_subset 1 _ hm)) rfl
    · intro hc
      have hm : '\\' ∈ lowerStr ((t.drop 3).take 4) := by
        rw [hc]
        decide
      exact h '\\' (List.drop_subset 3 t (List.take_subset 4 _ (backslash_mem_of_lower hm))) rfl
  · rw [if_neg hf]

theorem stripTrailFencePanel_inert {t : List Char} (h : ∀ c ∈ t, c ≠ '\\') :
    stripTrailFencePanel t = t := by
  have hside : ∀ n, ((t.take (t.length - n)).reverse.dropWhile isSChar).take 1 ≠ ['\\'] := by
    intro n hc
    have hm : '\\' ∈ ((t.take (t.length - n)).reverse.dropWhile isSChar).take 1 := by
      rw [hc]
      decide
    have hm2 := (List.dropWhile_sublist isSChar).subset (List.take_subset 1 _ hm)
    exact h '\\' (List.take_subset _ t (List.mem_reverse.1 hm2)) rfl
  rw [stripTrailFencePanel]
  by_cases h3 : fence.isSuffixOf t = true
  · rw [if_pos h3, if_neg (hside 3)]
  · rw [if_neg (by simp [h3])]
    by_cases h4 : (fence ++ ['\n']).isSuffixOf t = true
    · rw [if_pos h4, if_neg (hside 4)]
    · rw [if_neg (by simp [h4])]

theorem findSelPanel_none {l : List Char} (h : ∀ c ∈ l, c ≠ '\\') :
    findSelPanel l = none := by
  induction l with
  | nil => rfl
  | cons c tl ih =>
    rw [findSelPanel, if_neg, ih (fun d hd => h d (by simp [hd]))]
    intro hm
    have hm' : lowerStr ((c :: tl).take 10) = "\\bselect\\b".toList :=
      of_decide_eq_true hm
    have : '\\' ∈ lowerStr ((c :: tl).take 10) := by
      rw [hm']
      decide
    exact h '\\' (List.take_subset 10 _ (backslash_mem_of_lower this)) rfl

theorem sanitize_sql_panel_noBackslash {x : List Char} (h : ∀ c ∈ x, c ≠ '\\') :
    sanitize_sql_panel x = rstripSemi (pstrip x) := by
  by_cases hx : x = []
  · subst hx
    rfl
  · have h0 : ∀ c ∈ pstrip x, c ≠ '\\' := fun c hc => h c (pstrip_sub c hc)
    have e1 : stripLabelPanel (pstrip x) = pstrip x := stripLabelPanel_inert h0
    have e2 : stripLeadFencePanel (pstrip x) = pstrip x := stripLeadFencePanel_inert h0
    have e3 : stripTrailFencePanel (pstrip x) = pstrip x := stripTrailFencePanel_inert h0
    have e4 : findSelPanel (pstrip x) = none := findSelPanel_none h0
    simp only [sanitize_sql_panel, if_neg hx, e1, e2, e3, e4]
    rw [pstrip_idem]

theorem startsSelectPanel_false {u : List Char} (h : ∀ c ∈ u, c ≠ '\\') :
    startsSelectPanel u = false := by
  cases u with
  | nil => rfl
  | cons c rest =>
    have hc : c ≠ '\\' := h c (by simp)
    simp [startsSelectPanel, hc]

theorem sql_is_safe_panel_noBackslash {bqTable s : List Char} (h : ∀ c ∈ s, c ≠ '\\') :
    sql_is_safe_panel bqTable s = false := by
  have hl : ∀ c ∈ lowerStr (pstrip s), c ≠ '\\' := by
    intro c hc hcb
    subst hcb
    exact h '\\' (pstrip_sub '\\' (backslash_mem_of_lower hc)) rfl
  simp only [sql_is_safe_panel, startsSelectPanel_false hl, Bool.false_and]

theorem hasTrailingLimitPanel_noBackslash {s : List Char} (h : ∀ c ∈ s, c ≠ '\\') :
    hasTrailingLimitPanel s = false := by
  cases hb : hasTrailingLimitPanel s with
  | false => rfl
  | true =>
    exfalso
    simp only [hasTrailingLimitPanel, Bool.and_eq_true, decide_eq_true_eq] at hb
    have hc := hb.1
    have hm : '\\' ∈ ((if s.reverse.take 1 = ['\n'] then s.reverse.drop 1
        else s.reverse).dropWhile isSChar).take 1 := by
      rw [hc]
      decide
    have hm2 := (List.dropWhile_sublist isSChar).subset (List.take_subset 1 _ hm)
    have hm3 : '\\' ∈ s.reverse := by
      by_cases hN : s.reverse.take 1 = ['\n']
      · rw [if_pos hN] at hm2
        exact List.drop_subset 1 _ hm2
      · rwa [if_neg hN] at hm2
    exact h '\\' (List.mem_reverse.1 hm3) rfl

theorem ensure_limit_panel_noBackslash {s : List Char} (n : Nat)
    (h : ∀ c ∈ s, c ≠ '\\') : ensure_limit_panel s n = s ++ nlLimitPanel n := by
  rw [ensure_limit_panel, if_neg (by simp [hasTrailingLimitPanel_noBackslash h])]

/-! ### Claim theorems -/

/-- C1: whenever a variant's generated (sanitized) statement fails that
variant's policy validator, the variant makes zero warehouse calls, resolves
the turn with its "could not produce a safe query" answer, and retains the
unsafe statement on the turn. -/
theorem unsafe_statement_never_executed :
    ∀ (bqTable : List Char) (hasClient : Bool) (llmRaw : List Char)
      (whRows : List Char → Nat) (llmSummary tyErrText : List Char),
      (sql_is_safe bqTable (build_sql_with_ai hasClient llmRaw) = false →
        (process_turn bqTable hasClient llmRaw whRows llmSummary).executed = [] ∧
        (process_turn bqTable hasClient llmRaw whRows llmSummary).answer = msgUnsafe ∧
        (process_turn bqTable hasClient llmRaw whRows llmSummary).sqlField =
          build_sql_with_ai hasClient llmRaw) ∧
      (sql_is_safe_panel bqTable (build_sql_with_ai_panel hasClient llmRaw) = false →
        (process_pending_panel bqTable hasClient llmRaw whRows tyErrText).executed = [] ∧
        (process_pending_panel bqTable hasClient llmRaw whRows tyErrText).findings =
          [panelInvalidFinding] ∧
        (process_pending_panel bqTable hasClient llmRaw whRows tyErrText).sqlField =
          some (build_sql_with_ai_panel hasClient llmRaw)) := by
  intro bqTable hasClient llmRaw whRows llmSummary tyErrText
  constructor
  · intro h
    simp only [process_turn]
    rw [if_pos (Or.inr h)]
    exact ⟨rfl, rfl, rfl⟩
  · intro h
    simp only [process_pending_panel]
    rw [if_pos (Or.inr h)]
    exact ⟨rfl, rfl, rfl⟩

/-- C1 witness: the scenario-B statement `DROP TABLE proj.ds.tbl`, rejected
by both variants' validators. -/
theorem unsafe_statement_never_executed_witness :
    (process_turn ("proj.ds.tbl".toList) true ("DROP TABLE proj.ds.tbl".toList)
        (fun _ => 3) ("ok".toList)).executed = [] ∧
    (process_turn ("proj.ds.tbl".toList) true ("DROP TABLE proj.ds.tbl".toList)
        (fun _ => 3) ("ok".toList)).answer = msgUnsafe ∧
    (process_pending_panel ("proj.ds.tbl".toList) true ("DROP TABLE proj.ds.tbl".toList)
        (fun _ => 3) ("err".toList)).executed = [] :=
  ⟨(((unsafe_statement_never_executed ("proj.ds.tbl".toList) true
      ("DROP TABLE proj.ds.tbl".toList) (fun _ => 3) ("ok".toList) ("err".toList)).1)
      (by decide)).1,
   (((unsafe_statement_never_executed ("proj.ds.tbl".toList) true
      ("DROP TABLE proj.ds.tbl".toList) (fun _ => 3) ("ok".toList) ("err".toList)).1)
      (by decide)).2.1,
   (((unsafe_statement_never_executed ("proj.ds.tbl".toList) true
      ("DROP TABLE proj.ds.tbl".toList) (fun _ => 3) ("ok".toList) ("err".toList)).2)
      (by decide)).1⟩

/-- C2: `ensure_limit` preserves the policy predicate and always yields an
explicit row ceiling, and every statement the pipeline hands to the warehouse
satisfies both. -/
theorem executed_statement_safe_and_limited :
    (∀ (bqTable sql : List Char) (n : Nat), sql_is_safe bqTable sql = true →
        sql_is_safe bqTable (ensure_limit sql n) = true ∧
          hasTrailingLimit (ensure_limit sql n) = true) ∧
    (∀ (bqTable : List Char) (hasClient : Bool) (llmRaw : List Char)
        (whRows : List Char → Nat) (llmSummary q : List Char),
        (process_turn bqTable hasClient llmRaw whRows llmSummary).executed = [q] →
        sql_is_safe bqTable q = true ∧ hasTrailingLimit q = true) := by
  refine ⟨fun bqTable sql n h => safe_ensure_limit n h, ?_⟩
  intro bqTable hasClient llmRaw whRows llmSummary q hq
  by_cases hcond : build_sql_with_ai hasClient llmRaw = [] ∨
      sql_is_safe bqTable (build_sql_with_ai hasClient llmRaw) = false
  · exfalso
    simp only [process_turn] at hq
    rw [if_pos hcond] at hq
    simp at hq
  · simp only [process_turn] at hq
    rw [if_neg hcond] at hq
    simp only at hq
    have hqe : q = ensure_limit (build_sql_with_ai hasClient llmRaw) 1000 := by
      have := hq
      simp at this
      exact this.symm
    have hsafe : sql_is_safe bqTable (build_sql_with_ai hasClient llmRaw) = true := by
      rcases Bool.eq_false_or_eq_true (sql_is_safe bqTable (build_sql_with_ai hasClient llmRaw))
        with ht | hf
      · exact ht
      · exact absurd (Or.inr hf) hcond
    rw [hqe]
    exact safe_ensure_limit 1000 hsafe

/-- C2 witness: a safe statement, limited and re-validated. -/
theorem executed_statement_safe_and_limited_witness :
    sql_is_safe ("proj.ds.tbl".toList) ("SELECT col FROM proj.ds.tbl".toList) = true ∧
    (sql_is_safe ("proj.ds.tbl".toList)
        (ensure_limit ("SELECT col FROM proj.ds.tbl".toList) 1000) = true ∧
      hasTrailingLimit (ensure_limit ("SELECT col FROM proj.ds.tbl".toList) 1000) = true) :=
  ⟨by decide,
   executed_statement_safe_and_limited.1 ("proj.ds.tbl".toList)
     ("SELECT col FROM proj.ds.tbl".toList) 1000 (by decide)⟩

/-- C3: any statement containing a forbidden token as a case-insensitive
substring is rejected; in particular `SELECT * FROM x; DROP TABLE x` is
rejected for every configured table. -/
theorem forbidden_token_rejected :
    (∀ (bqTable sql tok : List Char), tok ∈ forbidden → tok <:+: lowerStr sql →
        sql_is_safe bqTable sql = false) ∧
    (∀ bqTable : List Char,
        sql_is_safe bqTable ("SELECT * FROM x; DROP TABLE x".toList) = false) := by
  have main : ∀ (bqTable sql tok : List Char), tok ∈ forbidden → tok <:+: lowerStr sql →
      sql_is_safe bqTable sql = false := by
    intro bqTable sql tok htok hmid
    rcases Bool.eq_false_or_eq_true (sql_is_safe bqTable sql) with ht | hf
    · exfalso
      obtain ⟨_, h2, _⟩ := safe_iff.1 ht
      obtain ⟨_, hnsp, _⟩ := forbidden_facts tok htok
      exact h2 tok htok (tok_mid_pstrip hnsp hmid)
    · exact hf
  exact ⟨main, fun bqTable => main bqTable _ (";".toList) (by decide) (by decide)⟩

/-- C3 witness: a comment-obfuscated statement is rejected. -/
theorem forbidden_token_rejected_witness :
    sql_is_safe ("proj.ds.tbl".toList)
      ("select * from proj.ds.tbl where a --b".toList) = false :=
  forbidden_token_rejected.1 _ _ ("--".toList) (by decide) (by decide)

/-- C4 (amended): when no word-boundary `select` occurrence exists after
trimming, label stripping and fence stripping, `sanitize_sql` returns that
stripped residue (trimmed, with trailing terminators removed) — not the
empty string. -/
theorem no_select_keeps_residue :
    ∀ text : List Char, findSel none (preSel text) = none →
      sanitize_sql text = rstripSemi (pstrip (preSel text)) := by
  intro text h
  by_cases hx : text = []
  · subst hx
    rfl
  · have h' : findSel none (stripTrailFence (stripLeadFence (stripLabel (pstrip text)))) =
        none := h
    simp only [sanitize_sql, if_neg hx, h']
    rfl

/-- C4 counterexample: `foo` has no `select` occurrence, yet `sanitize_sql`
returns `foo`, not the empty string. -/
theorem no_select_keeps_residue_cex :
    findSel none (preSel ("foo".toList)) = none ∧ sanitize_sql ("foo".toList) ≠ [] := by
  decide

/-- C4 witness: the amended equation at the concrete input `foo`. -/
theorem no_select_keeps_residue_witness :
    sanitize_sql ("foo".toList) = rstripSemi (pstrip (preSel ("foo".toList))) :=
  no_select_keeps_residue _ (by decide)

/-- C5: the minimal statement `SELECT col FROM <targetTable>` is accepted for
a configured target table (one free of forbidden tokens), and any statement
whose backtick/whitespace-normalized text does not contain the normalized
target identifier is rejected. -/
theorem minimal_select_and_target_policy :
    (∀ target : List Char, (∀ tok ∈ forbidden, ¬ tok <:+: lowerStr target) →
        sql_is_safe target ("SELECT col FROM ".toList ++ target) = true) ∧
    (∀ bqTable sql : List Char,
        ¬ (cleanTicksSpace (lowerStr bqTable) <:+: cleanTicksSpace (lowerStr sql)) →
        sql_is_safe bqTable sql = false) := by
  constructor
  · intro target htok
    rw [safe_iff]
    have hsel : "SELECT col FROM ".toList ++ target =
        'S' :: ("ELECT col FROM ".toList ++ target) := rfl
    have hlstrip : lstrip ("SELECT col FROM ".toList ++ target) =
        "SELECT col FROM ".toList ++ target := by
      rw [hsel]
      exact lstrip_cons_neg (by decide)
    by_cases hrt : rstrip target = []
    · have hts : ∀ c ∈ target, isSpace c = true := rstrip_eq_nil_allspace hrt
      have hp : pstrip ("SELECT col FROM ".toList ++ target) = "SELECT col FROM".toList := by
        rw [pstrip, hlstrip, rstrip_append_allspace hts]
        decide
      rw [hp]
      refine ⟨by decide, by decide, ?_⟩
      rw [clean_allspace (lowerStr_allspace hts)]
      exact nil_is_infix _
    · have hp : pstrip ("SELECT col FROM ".toList ++ target) =
          "SELECT col FROM ".toList ++ rstrip target := by
        rw [pstrip, hlstrip]
        exact rstrip_append_ne hrt
      have hlow : lowerStr (pstrip ("SELECT col FROM ".toList ++ target)) =
          "select col from ".toList ++ lowerStr (rstrip target) := by
        have hconst : lowerStr ("SELECT col FROM ".toList) = "select col from ".toList := by
          decide
        rw [hp, lowerStr_append, hconst]
      rw [hlow]
      refine ⟨?_, ?_, ?_⟩
      · rw [startsSelect_iff]
        refine ⟨" col from ".toList ++ lowerStr (rstrip target), ?_, rfl⟩
        have hcons : "select col from ".toList ++ lowerStr (rstrip target) =
            's' :: ("elect col from ".toList ++ lowerStr (rstrip target)) := rfl
        rw [hcons, dropWhile_cons_neg (by decide)]
        rfl
      · intro tok htk hmid
        obtain ⟨hne, hnsp, _, _, hnsc⟩ := forbidden_facts tok htk
        have hre : "select col from ".toList ++ lowerStr (rstrip target) =
            "select col from".toList ++ (' ' :: lowerStr (rstrip target)) := rfl
        rw [hre] at hmid
        rcases mid_split hmid with hA | hB | ⟨t1, t2, heq, _, hne2, _, hpre⟩
        · exact hnsc hA
        · have hB' : tok <:+: [' '] ++ lowerStr (rstrip target) := hB
          have hlt : tok <:+: lowerStr (rstrip target) := by
            refine mid_left_all ?_ hnsp hB'
            intro c hc
            simp at hc
            rw [hc]
            decide
          obtain ⟨wr, hwr, _⟩ := rstrip_decomp target
          have hsub : lowerStr (rstrip target) <:+: lowerStr target :=
            mid_map_lower (pre_to_mid ⟨wr, hwr.symm⟩)
          exact htok tok htk (hlt.trans hsub)
        · obtain ⟨c, r2, rfl⟩ := List.exists_cons_of_ne_nil hne2
          obtain ⟨v, hv⟩ := hpre
          have hc : c = ' ' := by
            rw [List.cons_append, List.cons.injEq] at hv
            exact hv.1
          have hct : c ∈ tok := by rw [heq]; simp
          have := hnsp c hct
          rw [hc] at this
          simp [isSpace] at this
      · rw [clean_append]
        obtain ⟨wr, hwr, hwsp⟩ := rstrip_decomp target
        have hclean : cleanTicksSpace (lowerStr target) =
            cleanTicksSpace (lowerStr (rstrip target)) := by
          conv_lhs => rw [hwr]
          rw [lowerStr_append, clean_append, clean_allspace (lowerStr_allspace hwsp),
            List.append_nil]
        rw [hclean]
        exact ⟨cleanTicksSpace ("select col from ".toList), [], by simp⟩
  · intro bqTable sql h
    rcases Bool.eq_false_or_eq_true (sql_is_safe bqTable sql) with ht | hf
    · exfalso
      obtain ⟨_, _, h3⟩ := safe_iff.1 ht
      rw [clean_lower_pstrip] at h3
      exact h h3
    · exact hf

/-- C5 witness: accepted on the scenario table, rejected on another table. -/
theorem minimal_select_and_target_policy_witness :
    sql_is_safe ("proj.ds.tbl".toList)
        ("SELECT col FROM ".toList ++ "proj.ds.tbl".toList) = true ∧
    sql_is_safe ("proj.ds.tbl".toList) ("SELECT col FROM other.ds.tbl".toList) = false :=
  ⟨minimal_select_and_target_policy.1 ("proj.ds.tbl".toList) (by decide),
   minimal_select_and_target_policy.2 ("proj.ds.tbl".toList)
     ("SELECT col FROM other.ds.tbl".toList) (by decide)⟩

/-- C6 (amended): with no LLM credential, `build_sql_with_ai` returns the
empty string and the pipeline resolves with the generic "could not produce a
safe query" message (not a credential-specific one), records the empty
statement, and makes no warehouse call. -/
theorem no_credential_flow :
    ∀ (bqTable llmRaw : List Char) (whRows : List Char → Nat) (llmSummary : List Char),
      build_sql_with_ai false llmRaw = [] ∧
      (process_turn bqTable false llmRaw whRows llmSummary).answer = msgUnsafe ∧
      (process_turn bqTable false llmRaw whRows llmSummary).sqlField = [] ∧
      (process_turn bqTable false llmRaw whRows llmSummary).executed = [] := by
  intro bqTable llmRaw whRows llmSummary
  have hsql : build_sql_with_ai false llmRaw = [] := rfl
  refine ⟨hsql, ?_, ?_, ?_⟩ <;>
    simp [process_turn, hsql]

/-- C6 counterexample: the no-credential turn resolves with the generic
unsafe-query message, which is not the credential-configuration message. -/
theorem no_credential_cex :
    (process_turn ("proj.ds.tbl".toList) false ("q".toList) (fun _ => 0) []).answer =
        msgUnsafe ∧
      msgUnsafe ≠ msgNoKeySummary := by
  constructor
  · decide
  · decide

/-- C7: the summarizer checks its special cases in order — no credential
yields the fixed feature-disabled message for every row count, and an empty
result set yields the fixed no-data message with zero LLM calls. -/
theorem summarizer_order_and_skips :
    (∀ (rows : Nat) (out : List Char),
        ai_summary_paragraph false rows out = (msgNoKeySummary, 0)) ∧
    (∀ out : List Char, ai_summary_paragraph true 0 out = (msgNoData, 0)) :=
  ⟨fun _ _ => rfl, fun _ => rfl⟩

/-- C8 (amended): the two variants do not implement the same helpers.  The
panel's patterns are raw strings whose doubled backslashes denote
literal-backslash regexes, so on every backslash-free input the panel
sanitizer only trims whitespace and trailing terminators, the panel validator
rejects every backslash-free statement, and the panel limit enforcer appends
its literal backslash-`n` tail even to statements already ending in a LIMIT
clause. -/
theorem variant_helpers_divergence :
    (∀ x : List Char, (∀ c ∈ x, c ≠ '\\') →
        sanitize_sql_panel x = rstripSemi (pstrip x)) ∧
    (∀ t s : List Char, (∀ c ∈ s, c ≠ '\\') → sql_is_safe_panel t s = false) ∧
    (∀ (s : List Char) (n : Nat), (∀ c ∈ s, c ≠ '\\') →
        ensure_limit_panel s n = s ++ nlLimitPanel n) :=
  ⟨fun _ h => sanitize_sql_panel_noBackslash h,
   fun _ _ h => sql_is_safe_panel_noBackslash h,
   fun _ n h => ensure_limit_panel_noBackslash n h⟩

/-- C8 counterexample: all three helper pairs disagree on ordinary inputs —
a fenced completion, the minimal safe statement, and an already-limited
statement. -/
theorem variant_helpers_cex :
    sanitize_sql_panel ("```sql\nSELECT 1```".toList) ≠
        sanitize_sql ("```sql\nSELECT 1```".toList) ∧
    sql_is_safe_panel ("proj.ds.tbl".toList) ("SELECT col FROM proj.ds.tbl".toList) ≠
        sql_is_safe ("proj.ds.tbl".toList) ("SELECT col FROM proj.ds.tbl".toList) ∧
    ensure_limit_panel ("SELECT 1 LIMIT 5".toList) 1000 ≠
        ensure_limit ("SELECT 1 LIMIT 5".toList) 1000 :=
  ⟨by decide, by decide, by decide⟩

/-- C8 witness: the divergence theorem applied to concrete backslash-free
inputs. -/
theorem variant_helpers_divergence_witness :
    sanitize_sql_panel ("```sql\nSELECT 1```".toList) =
        rstripSemi (pstrip ("```sql\nSELECT 1```".toList)) ∧
    sql_is_safe_panel ("proj.ds.tbl".toList) ("SELECT col FROM proj.ds.tbl".toList) =
        false ∧
    ensure_limit_panel ("SELECT 1 LIMIT 5".toList) 1000 =
        "SELECT 1 LIMIT 5".toList ++ nlLimitPanel 1000 :=
  ⟨variant_helpers_divergence.1 ("```sql\nSELECT 1```".toList) (by decide),
   variant_helpers_divergence.2.1 ("proj.ds.tbl".toList)
     ("SELECT col FROM proj.ds.tbl".toList) (by decide),
   variant_helpers_divergence.2.2 ("SELECT 1 LIMIT 5".toList) 1000 (by decide)⟩

/-- C9 (amended): `sanitize_sql` is idempotent on every input whose sanitized
form starts with the word-boundary select keyword and ends with neither a
whitespace character nor a code fence; unconditional idempotence fails. -/
theorem sanitize_fixpoint {y : List Char} (hy : y ≠ []) (h0 : pstrip y = y)
    (h1 : stripLabel y = y) (h2 : stripLeadFence y = y) (h3 : stripTrailFence y = y)
    (h4 : findSel none y = some y) (h5 : rstripSemi y = y) : sanitize_sql y = y := by
  simp only [sanitize_sql, if_neg hy]
  rw [h0, h1, h2, h3, h4]
  show rstripSemi (pstrip y) = y
  rw [h0, h5]

theorem sanitize_idem_conditional :
    ∀ x : List Char,
      matchSelAt none (sanitize_sql x) = true →
      lastIsSpace (sanitize_sql x) = false →
      fence.isSuffixOf (sanitize_sql x) = false →
      sanitize_sql (sanitize_sql x) = sanitize_sql x := by
  intro x h1 h2 h3
  obtain ⟨c, t, hct, hlow, hsp⟩ := matchSel_head h1
  have hyne : sanitize_sql x ≠ [] := by rw [hct]; simp
  have e0 : pstrip (sanitize_sql x) = sanitize_sql x := by
    rw [hct]
    exact pstrip_fix hsp (hct ▸ h2)
  exact sanitize_fixpoint hyne e0 (stripLabel_of_sel h1) (stripLeadFence_of_sel h1)
    (stripTrailFence_of_clean h2 h3) (findSel_of_head h1) (sanitize_rstripSemi_fix x)

/-- C9 counterexample: idempotence fails on `select 1 ;`, whose first
sanitization leaves a trailing space that the second pass removes. -/
theorem sanitize_idem_cex :
    sanitize_sql (sanitize_sql ("select 1 ;".toList)) ≠
      sanitize_sql ("select 1 ;".toList) := by
  decide

/-- C9 witness: a fenced, labelled completion whose sanitized form is clean,
so a second sanitization is the identity. -/
theorem sanitize_idem_conditional_witness :
    sanitize_sql (sanitize_sql ("```sql\nSELECT * FROM t;```".toList)) =
      sanitize_sql ("```sql\nSELECT * FROM t;```".toList) :=
  sanitize_idem_conditional _ (by decide) (by decide) (by decide)

/-- C10: `ensure_limit` keeps an already-limited statement unchanged,
otherwise appends the default ceiling on a new line, and is idempotent. -/
theorem ensure_limit_idem_and_stable :
    (∀ (s : List Char) (n : Nat), hasTrailingLimit s = true → ensure_limit s n = s) ∧
    (∀ (s : List Char) (n : Nat), hasTrailingLimit s = false →
        ensure_limit s n = s ++ nlLimit n) ∧
    (∀ (s : List Char) (n : Nat), ensure_limit (ensure_limit s n) n = ensure_limit s n) := by
  refine ⟨fun s n h => by rw [ensure_limit, if_pos h],
    fun s n h => by rw [ensure_limit, if_neg (by simp [h])], fun s n => ?_⟩
  by_cases h : hasTrailingLimit s = true
  · have hinner : ensure_limit s n = s := by rw [ensure_limit, if_pos h]
    rw [hinner, hinner]
  · have hinner : ensure_limit s n = s ++ nlLimit n := by rw [ensure_limit, if_neg h]
    rw [hinner, ensure_limit, if_pos (hasTrailingLimit_append s n)]

/-- C10 witness: stability on a limited statement, appending on an
unlimited one. -/
theorem ensure_limit_idem_and_stable_witness :
    ensure_limit ("SELECT x LIMIT 5".toList) 1000 = "SELECT x LIMIT 5".toList ∧
      ensure_limit ("SELECT x".toList) 1000 = "SELECT x".toList ++ nlLimit 1000 :=
  ⟨ensure_limit_idem_and_stable.1 ("SELECT x LIMIT 5".toList) 1000 (by decide),
   ensure_limit_idem_and_stable.2.1 ("SELECT x".toList) 1000 (by decide)⟩

end GSCChat
